import Mathlib

/-!
# Verification of the emstrument MIDI command core

A shallow embedding of `src/emstrument.c`: the command queue, the two-pass
coalescer in `midi_sendMessages` (backward dedup pass and forward
retrigger-split pass), the note-state/generation-counter machinery used by
scheduled note-offs, and the argument clamping in the Lua-facing API calls.

Machine integers are modelled as `Int`/`Nat` with explicit `% 2^w` where the
C code relies on fixed width (`lastNoteIDs` is a `uint8_t`, hence `% 256`;
`x & 0x7F` on a two's-complement int is `x % 128`).  The CoreMIDI transport
and GCD timers are out of scope; their state effects (`notePlaying`,
`lastNoteIDs`, the generation comparison in the deferred note-off block) are
modelled explicitly.
-/

set_option maxRecDepth 4000

namespace Emstrument

/-- The `commandType` enum of emstrument.c. -/
inductive commandType where
  | kInvalid
  | kNoteOn
  | kNoteOnWithDuration
  | kNoteOff
  | kCC
  | kPitchBend
  | kResetNotes
deriving DecidableEq

open commandType

/-- The `command` struct.  The C struct uses unions: the `note` field also
stores the CC number (for `kCC`) and the most significant 7 bits (for
`kPitchBend`); the `velocity` field also stores the CC value and the least
significant 7 bits.  Fields the C code leaves uninitialized are set to 0. -/
structure command where
  type : commandType
  channel : Int
  note : Int
  velocity : Int
  duration : Int
deriving DecidableEq

/-- The CC number of a `kCC` command (stored in the `note` union slot). -/
def command.CC (c : command) : Int := c.note

/-- The CC value of a `kCC` command (stored in the `velocity` union slot). -/
def command.value (c : command) : Int := c.velocity

/-- A command is one of the two note-on kinds. -/
def onKind (t : commandType) : Prop := t = kNoteOn ∨ t = kNoteOnWithDuration

instance (t : commandType) : Decidable (onKind t) := by
  unfold onKind; infer_instance

/-! ## Pass 1 masks

`midi_sendMessages` keeps `uint16_t noteOns[128]`, `noteOffs[128]`, `CCs[128]`
(a channel bitmask per note / CC number) plus the scalars `notesReset` and
`pitchBends`.  Bit tests are `(mask[key] >> ch) & 1 == 1` and claims are
`mask[key] |= (1 << ch)`. -/

/-- Channel bitmasks used by the backward dedup pass. -/
structure Masks where
  noteOns : Int → Nat
  noteOffs : Int → Nat
  CCs : Int → Nat
  notesReset : Nat
  pitchBends : Nat

/-- All masks zeroed (the `memset` calls at the top of `midi_sendMessages`). -/
def initMasks : Masks := ⟨fun _ => 0, fun _ => 0, fun _ => 0, 0, 0⟩

/-- The bit test `(m >> ch) & 1 == 1`. -/
def bitGet (m : Nat) (ch : Int) : Bool := (m >>> ch.toNat) &&& 1 == 1

/-- The bit claim `m |= (1 << ch)`. -/
def claimBit (m : Nat) (ch : Int) : Nat := m ||| (1 <<< ch.toNat)

/-- One iteration of the backward dedup loop (`midi_sendMessages`, pass 1):
given the command at the current index and the masks accumulated from the
commands *after* it in the queue, produce the (possibly invalidated) command
and the updated masks. -/
def pass1Step (c : command) (m : Masks) : command × Masks :=
  match c.type with
  | kNoteOn | kNoteOnWithDuration =>
    if bitGet (m.noteOffs c.note) c.channel then
      ({ c with type := kInvalid }, m)
    else if bitGet (m.noteOns c.note) c.channel then
      ({ c with type := kInvalid }, m)
    else if bitGet m.notesReset c.channel then
      ({ c with type := kInvalid }, m)
    else
      (c, { m with noteOns := fun n => if n = c.note then claimBit (m.noteOns n) c.channel else m.noteOns n })
  | kNoteOff =>
      (c, { m with noteOffs := fun n => if n = c.note then claimBit (m.noteOffs n) c.channel else m.noteOffs n })
  | kCC =>
    if bitGet (m.CCs c.note) c.channel then
      ({ c with type := kInvalid }, m)
    else
      (c, { m with CCs := fun n => if n = c.note then claimBit (m.CCs n) c.channel else m.CCs n })
  | kPitchBend =>
    if bitGet m.pitchBends c.channel then
      ({ c with type := kInvalid }, m)
    else
      (c, { m with pitchBends := claimBit m.pitchBends c.channel })
  | kResetNotes =>
      (c, { m with notesReset := claimBit m.notesReset c.channel })
  | kInvalid => (c, m)

/-- The backward dedup pass.  The C loop runs from the last queue index down
to 0; here the list tail (the later commands) is processed first and the head
is processed against the resulting masks, which is the same traversal. -/
def pass1 : List command → Masks → List command × Masks
  | [], m => ([], m)
  | c :: rest, m =>
      let pr := pass1 rest m
      let pc := pass1Step c pr.2
      (pc.1 :: pr.1, pc.2)

/-- The forward retrigger-split pass (`midi_sendMessages`, pass 2): every
surviving note-on-kind command whose note is currently playing is copied to
the delayed list and replaced, in place, by a `kNoteOff` (only the `type`
field changes; the other struct fields are left as they were). -/
def pass2 (playing : Int → Int → Bool) : List command → List command × List command
  | [] => ([], [])
  | c :: rest =>
      let pr := pass2 playing rest
      if c.type = kNoteOn ∨ c.type = kNoteOnWithDuration then
        if playing c.channel c.note then
          ({ c with type := kNoteOff } :: pr.1, c :: pr.2)
        else
          (c :: pr.1, pr.2)
      else
        (c :: pr.1, pr.2)

/-- Whether pass 2 moves a command to the delayed list. -/
def pass2keep (playing : Int → Int → Bool) (c : command) : Bool :=
  decide (c.type = kNoteOn ∨ c.type = kNoteOnWithDuration) && playing c.channel c.note

/-- The in-place replacement pass 2 performs on one command. -/
def pass2subst (playing : Int → Int → Bool) (c : command) : command :=
  if pass2keep playing c then { c with type := kNoteOff } else c

/-- The commands pass 3 of `midi_sendMessages` actually sends: the queue after
passes 1 and 2, with `kInvalid` entries skipped. -/
def immediateSends (cmds : List command) (playing : Int → Int → Bool) : List command :=
  ((pass2 playing (pass1 cmds initMasks).1).1).filter (fun c => decide (c.type ≠ kInvalid))

/-- The delayed command list handed to the deferred GCD block. -/
def deferredList (cmds : List command) (playing : Int → Int → Bool) : List command :=
  (pass2 playing (pass1 cmds initMasks).1).2

/-! ## The command queue (`queueCommand`) -/

/-- The dynamically sized command queue: `entries` models
`commandQueue[0 .. commandQueueIndex)`, `allocSize` models
`commandQueueAllocatedSize`. -/
structure cmdQueue where
  entries : List command
  allocSize : Nat
deriving DecidableEq

/-- The `queueCommand` function: grow by `CMD_BLOCK = 64` slots when full, then store the
command at the first free index.  The `realloc` is modelled as always
succeeding (the C code does not check its result). -/
def queueCommand (q : cmdQueue) (c : command) : cmdQueue :=
  if q.entries.length = q.allocSize then
    { entries := q.entries ++ [c], allocSize := q.allocSize + 64 }
  else
    { entries := q.entries ++ [c], allocSize := q.allocSize }

/-- The queue state `midi_init` establishes: empty, capacity `CMD_BLOCK`. -/
def initQueue : cmdQueue := ⟨[], 64⟩

/-- A throwaway command used to exercise the queue. -/
def dummyCommand : command := ⟨kNoteOff, 0, 0, 0, 0⟩

/-- Append `dummyCommand` `n` times. -/
def appendN : Nat → cmdQueue → cmdQueue
  | 0, q => q
  | n + 1, q => appendN n (queueCommand q dummyCommand)

/-! ## Note state and the deferred note-off generation scheme

`notePlaying[16][128]` and `uint8_t lastNoteIDs[16][128]`; the arrays are
modelled as total functions, the `uint8_t` increment as `(x + 1) % 256`. -/

/-- The shared per-note state. -/
structure NoteStateMx where
  notePlaying : Int → Int → Bool
  lastNoteIDs : Int → Int → Nat

/-- State effect of `sendNoteOn`: bump `lastNoteIDs[ch][note]` and set
`notePlaying[ch][note]`. -/
def sendNoteOnSt (ch note : Int) (st : NoteStateMx) : NoteStateMx :=
  { notePlaying := fun c n => if c = ch ∧ n = note then true else st.notePlaying c n,
    lastNoteIDs := fun c n => if c = ch ∧ n = note then (st.lastNoteIDs ch note + 1) % 256 else st.lastNoteIDs c n }

/-- State effect of `sendNoteOnWithDuration`: identical to `sendNoteOn` on the
shared state; the scheduled note-off closure additionally snapshots
`currentNoteID = lastNoteIDs[ch][note]` right after the bump. -/
def sendNoteOnWithDurationSt (ch note : Int) (st : NoteStateMx) : NoteStateMx :=
  sendNoteOnSt ch note st

/-- State effect of `sendNoteOff`: clear the playing flag.  Note that
`lastNoteIDs` is left untouched. -/
def sendNoteOffSt (ch note : Int) (st : NoteStateMx) : NoteStateMx :=
  { st with notePlaying := fun c n => if c = ch ∧ n = note then false else st.notePlaying c n }

/-- State effect of `sendResetNotes`: clear every playing flag on the channel
(`memset(&notePlaying[ch][0], 0, ...)`); `lastNoteIDs` is untouched. -/
def sendResetNotesSt (ch : Int) (st : NoteStateMx) : NoteStateMx :=
  { st with notePlaying := fun c n => if c = ch then false else st.notePlaying c n }

/-- The deferred note-off block scheduled by `sendNoteOnWithDuration`: at fire
time, if `lastNoteIDs[ch][note] == currentNoteID` then a note-off is sent and
`notePlaying[ch][note]` is cleared, otherwise nothing happens.  The boolean
records whether the note-off message was sent. -/
def noteOffFire (ch note : Int) (currentNoteID : Nat) (st : NoteStateMx) : NoteStateMx × Bool :=
  if st.lastNoteIDs ch note = currentNoteID then
    ({ st with notePlaying := fun c n => if c = ch ∧ n = note then false else st.notePlaying c n }, true)
  else
    (st, false)

/-- Events that can touch a note's state between the scheduling of a deferred
note-off and its fire time. -/
inductive midiOp where
  | opNoteOn (ch note vel : Int)
  | opNoteOnDur (ch note vel dur : Int)
  | opNoteOff (ch note : Int)
  | opResetNotes (ch : Int)

/-- Apply one send event to the note state. -/
def applyOp (op : midiOp) (st : NoteStateMx) : NoteStateMx :=
  match op with
  | .opNoteOn ch note _ => sendNoteOnSt ch note st
  | .opNoteOnDur ch note _ _ => sendNoteOnWithDurationSt ch note st
  | .opNoteOff ch note => sendNoteOffSt ch note st
  | .opResetNotes ch => sendResetNotesSt ch st

/-- Apply a sequence of send events, oldest first. -/
def applyOps (ops : List midiOp) (st : NoteStateMx) : NoteStateMx :=
  ops.foldl (fun s o => applyOp o s) st

/-- How many of the events retrigger the given note (each such send increments
`lastNoteIDs[ch][note]`). -/
def countRetrig (ch note : Int) : List midiOp → Nat
  | [] => 0
  | op :: rest =>
      (match op with
       | .opNoteOn c n _ => if c = ch ∧ n = note then 1 else 0
       | .opNoteOnDur c n _ _ => if c = ch ∧ n = note then 1 else 0
       | _ => 0) + countRetrig ch note rest

/-- The all-clear note state after `midi_init`. -/
def st0 : NoteStateMx := ⟨fun _ _ => false, fun _ _ => 0⟩

/-! ## Deferred dispatch timing (`dispatch_after` block and
`sendNoteOnWithDuration`'s note-off scheduling) -/

/-- What the deferred block sends for one note-on command. -/
structure SentNoteOn where
  ch : Int
  note : Int
  vel : Int
  scheduledOffDelayNs : Option ℚ
deriving DecidableEq

/-- The nanosecond delay `sendNoteOnWithDuration` hands to `dispatch_after`
for the scheduled note-off: `1000000 * duration_unit * (duration - offset)`.
No clamping is applied. -/
def noteOffDelayNs (unit offset : ℚ) (duration : Int) : ℚ :=
  1000000 * unit * (duration - offset)

/-- One iteration of the deferred block's send loop: `kNoteOn` is sent as is,
`kNoteOnWithDuration` is sent via `sendNoteOnWithDuration(..., duration,
offsetArg)` which schedules its note-off `noteOffDelayNs unit offsetArg
duration` nanoseconds later; other types are skipped. -/
def sendLoopItem (unit offsetArg : ℚ) (c : command) : Option SentNoteOn :=
  match c.type with
  | kNoteOn => some ⟨c.channel, c.note, c.velocity, none⟩
  | kNoteOnWithDuration => some ⟨c.channel, c.note, c.velocity, some (noteOffDelayNs unit offsetArg c.duration)⟩
  | _ => none

/-- The deferred block of `midi_sendMessages`: every item of the delayed list
is sent with offset argument `late` (= `late_note_offset`). -/
def deferredDispatch (unit late : ℚ) (delayed : List command) : List SentNoteOn :=
  delayed.filterMap (sendLoopItem unit late)

/-! ## The Lua-facing API calls

Each `midi_*` function is modelled as a function from its (already
type-checked) integer arguments to `Option command`: `some c` means `c` is
appended to the queue via `queueCommand`, `none` means the call returns 0
without appending anything.  The argument-count and `initcheck` error paths
of the binding layer are outside the model.  `x & 0x7F` on a two's-complement
int equals `x % 128` (`Int.emod`), and `>> 7` is an arithmetic shift, i.e.
floor division by 128. -/

/-- The optional 1-based channel argument: default 0, else decrement and clamp
to `[0, 15]`. -/
def clampChannel : Option Int → Int
  | none => 0
  | some v =>
      let ch := v - 1
      if ch < 0 then 0 else if ch > 15 then 15 else ch

/-- The `midi_noteon` API call. -/
def midi_noteon (note vel : Int) (chArg : Option Int) : Option command :=
  let note' := note % 128
  let vel' := vel % 128
  if vel' = 0 then none
  else some { type := kNoteOn, channel := clampChannel chArg, note := note', velocity := vel', duration := 0 }

/-- The `midi_noteoff` API call. -/
def midi_noteoff (note : Int) (chArg : Option Int) : Option command :=
  some { type := kNoteOff, channel := clampChannel chArg, note := note % 128, velocity := 0, duration := 0 }

/-- The `midi_noteonwithduration` API call. -/
def midi_noteonwithduration (note vel dur : Int) (chArg : Option Int) : Option command :=
  let note' := note % 128
  let vel' := vel % 128
  if vel' = 0 then none
  else if ¬ dur > 0 then none
  else some { type := kNoteOnWithDuration, channel := clampChannel chArg, note := note', velocity := vel', duration := dur }

/-- The `midi_CC` API call. -/
def midi_CC (cc value : Int) (chArg : Option Int) : Option command :=
  let cc1 := if cc < 0 then 0 else cc
  let cc2 := if cc1 > 119 then 119 else cc1
  some { type := kCC, channel := clampChannel chArg, note := cc2, velocity := value % 128, duration := 0 }

/-- The `midi_pitchbend` API call.  The float computation `delta14b = roundf(8191.0 *
clamped bend)` is abstracted as the integer argument `delta14b`; the rest
follows the source: `pb = 8192 + delta14b`, LSB `= pb & 0x7F`, MSB
`= (pb >> 7) & 0x7F`. -/
def midi_pitchbend (delta14b : Int) (chArg : Option Int) : Option command :=
  let pbvalue14b := 8192 + delta14b
  some { type := kPitchBend, channel := clampChannel chArg,
         note := (Int.fdiv pbvalue14b 128) % 128, velocity := pbvalue14b % 128, duration := 0 }

/-- The `midi_allnotesoff` API call. -/
def midi_allnotesoff (chArg : Option Int) : Option command :=
  some { type := kResetNotes, channel := clampChannel chArg, note := 0, velocity := 0, duration := 0 }

/-- The field ranges the spec asserts for queued commands. -/
def commandInRange (c : command) : Prop :=
  0 ≤ c.channel ∧ c.channel ≤ 15 ∧
  match c.type with
  | kNoteOn | kNoteOnWithDuration => 0 ≤ c.note ∧ c.note ≤ 127 ∧ 1 ≤ c.velocity ∧ c.velocity ≤ 127
  | kNoteOff => 0 ≤ c.note ∧ c.note ≤ 127
  | kCC => 0 ≤ c.note ∧ c.note ≤ 119 ∧ 0 ≤ c.velocity ∧ c.velocity ≤ 127
  | kPitchBend => 0 ≤ c.note ∧ c.note ≤ 127 ∧ 0 ≤ c.velocity ∧ c.velocity ≤ 127
  | _ => True

/-- The module-level state an API call can touch: the command queue and the
shared note state (API calls only ever append to the queue; `notePlaying` and
`lastNoteIDs` are mutated solely by the send functions). -/
structure EmState where
  queue : cmdQueue
  notes : NoteStateMx

/-- Run the queueing part of an API call on the module state. -/
def runQueuedCall (st : EmState) (r : Option command) : EmState :=
  match r with
  | some c => { st with queue := queueCommand st.queue c }
  | none => st

/-- Bitwise inclusion of mask states: the dedup pass only ever sets bits. -/
def maskLE (m m' : Masks) : Prop :=
  (∀ n k, (m.noteOns n).testBit k = true → (m'.noteOns n).testBit k = true) ∧
  (∀ n k, (m.noteOffs n).testBit k = true → (m'.noteOffs n).testBit k = true) ∧
  (∀ n k, (m.CCs n).testBit k = true → (m'.CCs n).testBit k = true) ∧
  (∀ k, m.notesReset.testBit k = true → m'.notesReset.testBit k = true) ∧
  (∀ k, m.pitchBends.testBit k = true → m'.pitchBends.testBit k = true)

/-! ## Bit-level lemmas -/

lemma bitGet_iff (m : Nat) (c : Int) : bitGet m c = true ↔ Nat.testBit m c.toNat = true := by
  simp [bitGet, Nat.testBit_to_div_mod, Nat.shiftRight_eq_div_pow, Nat.and_one_is_mod]

lemma testBit_claimBit (m : Nat) (c : Int) (k : Nat) :
    (claimBit m c).testBit k = true ↔ (m.testBit k = true ∨ c.toNat = k) := by
  simp [claimBit, Nat.testBit_or, Nat.one_shiftLeft, Nat.testBit_two_pow]

lemma claimBit_le (m : Nat) (c : Int) (k : Nat) (h : m.testBit k = true) :
    (claimBit m c).testBit k = true :=
  (testBit_claimBit m c k).2 (Or.inl h)

lemma claimBit_self (m : Nat) (c : Int) :
    (claimBit m c).testBit c.toNat = true :=
  (testBit_claimBit m c c.toNat).2 (Or.inr rfl)

lemma updMask_le (f : Int → Nat) (note ch : Int) (n : Int) (k : Nat)
    (h : (f n).testBit k = true) :
    ((if n = note then claimBit (f n) ch else f n)).testBit k = true := by
  by_cases hn : n = note
  · simp only [hn, if_true]
    exact claimBit_le _ _ _ (hn ▸ h)
  · simp only [hn, if_false]
    exact h

lemma updMask_sound (f : Int → Nat) (note ch : Int) (n : Int) (k : Nat)
    (h : ((if n = note then claimBit (f n) ch else f n)).testBit k = true) :
    (f n).testBit k = true ∨ (note = n ∧ ch.toNat = k) := by
  by_cases hn : n = note
  · subst hn
    simp only [if_true] at h
    rcases (testBit_claimBit _ _ _).1 h with h' | h'
    · exact Or.inl h'
    · exact Or.inr ⟨rfl, h'⟩
  · simp only [hn, if_false] at h
    exact Or.inl h

/-! ## Structural lemmas about pass 1 -/

lemma pass1_nil (m : Masks) : pass1 [] m = ([], m) := rfl

lemma pass1_cons (c : command) (rest : List command) (m : Masks) :
    pass1 (c :: rest) m =
      ((pass1Step c (pass1 rest m).2).1 :: (pass1 rest m).1, (pass1Step c (pass1 rest m).2).2) := rfl

lemma pass1_length (l : List command) (m : Masks) : (pass1 l m).1.length = l.length := by
  induction l with
  | nil => rfl
  | cons c rest ih => simp [pass1_cons, ih]

lemma pass1_append (l₁ l₂ : List command) (m : Masks) :
    pass1 (l₁ ++ l₂) m =
      ((pass1 l₁ (pass1 l₂ m).2).1 ++ (pass1 l₂ m).1, (pass1 l₁ (pass1 l₂ m).2).2) := by
  induction l₁ with
  | nil => simp [pass1_nil]
  | cons c rest ih => simp [pass1_cons, ih]

lemma maskLE_refl (m : Masks) : maskLE m m :=
  ⟨fun _ _ h => h, fun _ _ h => h, fun _ _ h => h, fun _ h => h, fun _ h => h⟩

lemma maskLE_trans {m₁ m₂ m₃ : Masks} (h : maskLE m₁ m₂) (h' : maskLE m₂ m₃) : maskLE m₁ m₃ :=
  ⟨fun n k hh => h'.1 n k (h.1 n k hh),
   fun n k hh => h'.2.1 n k (h.2.1 n k hh),
   fun n k hh => h'.2.2.1 n k (h.2.2.1 n k hh),
   fun k hh => h'.2.2.2.1 k (h.2.2.2.1 k hh),
   fun k hh => h'.2.2.2.2 k (h.2.2.2.2 k hh)⟩

lemma pass1Step_maskLE (c : command) (m : Masks) : maskLE m (pass1Step c m).2 := by
  obtain ⟨t, ch, note, vel, dur⟩ := c
  cases t <;> simp only [pass1Step] <;>
    first
      | exact maskLE_refl _
      | ((try split_ifs) <;>
          first
            | exact maskLE_refl _
            | (refine ⟨?_, ?_, ?_, ?_, ?_⟩ <;> intros <;>
                first
                  | assumption
                  | (apply updMask_le; assumption)
                  | (apply claimBit_le; assumption)))

lemma pass1_maskLE (l : List command) (m : Masks) : maskLE m (pass1 l m).2 := by
  induction l with
  | nil => exact maskLE_refl m
  | cons c rest ih =>
      rw [pass1_cons]
      exact maskLE_trans ih (pass1Step_maskLE c (pass1 rest m).2)

/-! ## Mask soundness: a set bit comes from the initial masks or from a
command of the corresponding kind in the processed list -/

lemma pass1Step_sound_offs (c : command) (m : Masks) (n : Int) (k : Nat)
    (h : (((pass1Step c m).2).noteOffs n).testBit k = true) :
    (m.noteOffs n).testBit k = true ∨ (c.type = kNoteOff ∧ c.note = n ∧ c.channel.toNat = k) := by
  obtain ⟨t, ch, note, vel, dur⟩ := c
  cases t with
  | kNoteOff =>
      simp only [pass1Step] at h
      rcases updMask_sound _ _ _ _ _ h with h' | ⟨h1, h2⟩
      · exact Or.inl h'
      · exact Or.inr ⟨rfl, h1, h2⟩
  | kNoteOn => simp only [pass1Step] at h; split_ifs at h <;> exact Or.inl h
  | kNoteOnWithDuration => simp only [pass1Step] at h; split_ifs at h <;> exact Or.inl h
  | kCC => simp only [pass1Step] at h; split_ifs at h <;> exact Or.inl h
  | kPitchBend => simp only [pass1Step] at h; split_ifs at h <;> exact Or.inl h
  | kResetNotes => exact Or.inl h
  | kInvalid => exact Or.inl h

lemma pass1Step_sound_ons (c : command) (m : Masks) (n : Int) (k : Nat)
    (h : (((pass1Step c m).2).noteOns n).testBit k = true) :
    (m.noteOns n).testBit k = true ∨ (onKind c.type ∧ c.note = n ∧ c.channel.toNat = k) := by
  obtain ⟨t, ch, note, vel, dur⟩ := c
  cases t with
  | kNoteOn =>
      simp only [pass1Step] at h
      split_ifs at h <;> try exact Or.inl h
      rcases updMask_sound _ _ _ _ _ h with h' | ⟨h1, h2⟩
      · exact Or.inl h'
      · exact Or.inr ⟨Or.inl rfl, h1, h2⟩
  | kNoteOnWithDuration =>
      simp only [pass1Step] at h
      split_ifs at h <;> try exact Or.inl h
      rcases updMask_sound _ _ _ _ _ h with h' | ⟨h1, h2⟩
      · exact Or.inl h'
      · exact Or.inr ⟨Or.inr rfl, h1, h2⟩
  | kNoteOff => exact Or.inl h
  | kCC => simp only [pass1Step] at h; split_ifs at h <;> exact Or.inl h
  | kPitchBend => simp only [pass1Step] at h; split_ifs at h <;> exact Or.inl h
  | kResetNotes => exact Or.inl h
  | kInvalid => exact Or.inl h

lemma pass1Step_sound_CCs (c : command) (m : Masks) (n : Int) (k : Nat)
    (h : (((pass1Step c m).2).CCs n).testBit k = true) :
    (m.CCs n).testBit k = true ∨ (c.type = kCC ∧ c.note = n ∧ c.channel.toNat = k) := by
  obtain ⟨t, ch, note, vel, dur⟩ := c
  cases t with
  | kCC =>
      simp only [pass1Step] at h
      split_ifs at h <;> try exact Or.inl h
      rcases updMask_sound _ _ _ _ _ h with h' | ⟨h1, h2⟩
      · exact Or.inl h'
      · exact Or.inr ⟨rfl, h1, h2⟩
  | kNoteOn => simp only [pass1Step] at h; split_ifs at h <;> exact Or.inl h
  | kNoteOnWithDuration => simp only [pass1Step] at h; split_ifs at h <;> exact Or.inl h
  | kNoteOff => exact Or.inl h
  | kPitchBend => simp only [pass1Step] at h; split_ifs at h <;> exact Or.inl h
  | kResetNotes => exact Or.inl h
  | kInvalid => exact Or.inl h

lemma pass1Step_sound_reset (c : command) (m : Masks) (k : Nat)
    (h : ((pass1Step c m).2).notesReset.testBit k = true) :
    m.notesReset.testBit k = true ∨ (c.type = kResetNotes ∧ c.channel.toNat = k) := by
  obtain ⟨t, ch, note, vel, dur⟩ := c
  cases t with
  | kResetNotes =>
      simp only [pass1Step] at h
      rcases (testBit_claimBit _ _ _).1 h with h' | h'
      · exact Or.inl h'
      · exact Or.inr ⟨rfl, h'⟩
  | kNoteOn => simp only [pass1Step] at h; split_ifs at h <;> exact Or.inl h
  | kNoteOnWithDuration => simp only [pass1Step] at h; split_ifs at h <;> exact Or.inl h
  | kNoteOff => exact Or.inl h
  | kCC => simp only [pass1Step] at h; split_ifs at h <;> exact Or.inl h
  | kPitchBend => simp only [pass1Step] at h; split_ifs at h <;> exact Or.inl h
  | kInvalid => exact Or.inl h

lemma pass1_sound_offs (l : List command) (m : Masks) (n : Int) (k : Nat)
    (h : (((pass1 l m).2).noteOffs n).testBit k = true) :
    (m.noteOffs n).testBit k = true ∨ ∃ c ∈ l, c.type = kNoteOff ∧ c.note = n ∧ c.channel.toNat = k := by
  induction l with
  | nil => exact Or.inl h
  | cons c rest ih =>
      rw [pass1_cons] at h
      rcases pass1Step_sound_offs _ _ _ _ h with h' | hc
      · rcases ih h' with h'' | ⟨d, hd, hprop⟩
        · exact Or.inl h''
        · exact Or.inr ⟨d, List.mem_cons_of_mem _ hd, hprop⟩
      · exact Or.inr ⟨c, List.mem_cons_self _ _, hc⟩

lemma pass1_sound_ons (l : List command) (m : Masks) (n : Int) (k : Nat)
    (h : (((pass1 l m).2).noteOns n).testBit k = true) :
    (m.noteOns n).testBit k = true ∨ ∃ c ∈ l, onKind c.type ∧ c.note = n ∧ c.channel.toNat = k := by
  induction l with
  | nil => exact Or.inl h
  | cons c rest ih =>
      rw [pass1_cons] at h
      rcases pass1Step_sound_ons _ _ _ _ h with h' | hc
      · rcases ih h' with h'' | ⟨d, hd, hprop⟩
        · exact Or.inl h''
        · exact Or.inr ⟨d, List.mem_cons_of_mem _ hd, hprop⟩
      · exact Or.inr ⟨c, List.mem_cons_self _ _, hc⟩

lemma pass1_sound_CCs (l : List command) (m : Masks) (n : Int) (k : Nat)
    (h : (((pass1 l m).2).CCs n).testBit k = true) :
    (m.CCs n).testBit k = true ∨ ∃ c ∈ l, c.type = kCC ∧ c.note = n ∧ c.channel.toNat = k := by
  induction l with
  | nil => exact Or.inl h
  | cons c rest ih =>
      rw [pass1_cons] at h
      rcases pass1Step_sound_CCs _ _ _ _ h with h' | hc
      · rcases ih h' with h'' | ⟨d, hd, hprop⟩
        · exact Or.inl h''
        · exact Or.inr ⟨d, List.mem_cons_of_mem _ hd, hprop⟩
      · exact Or.inr ⟨c, List.mem_cons_self _ _, hc⟩

lemma pass1_sound_reset (l : List command) (m : Masks) (k : Nat)
    (h : ((pass1 l m).2).notesReset.testBit k = true) :
    m.notesReset.testBit k = true ∨ ∃ c ∈ l, c.type = kResetNotes ∧ c.channel.toNat = k := by
  induction l with
  | nil => exact Or.inl h
  | cons c rest ih =>
      rw [pass1_cons] at h
      rcases pass1Step_sound_reset _ _ _ h with h' | hc
      · rcases ih h' with h'' | ⟨d, hd, hprop⟩
        · exact Or.inl h''
        · exact Or.inr ⟨d, List.mem_cons_of_mem _ hd, hprop⟩
      · exact Or.inr ⟨c, List.mem_cons_self _ _, hc⟩

/-! ## Mask completeness: note-offs and resets always claim their bit; a CC
claims (or finds already claimed) its bit -/

lemma pass1Step_claims_off (c : command) (m : Masks) (ht : c.type = kNoteOff) :
    (((pass1Step c m).2).noteOffs c.note).testBit c.channel.toNat = true := by
  obtain ⟨t, ch, note, vel, dur⟩ := c
  subst ht
  simp only [pass1Step, if_pos rfl]
  exact claimBit_self _ _

lemma pass1Step_claims_reset (c : command) (m : Masks) (ht : c.type = kResetNotes) :
    ((pass1Step c m).2).notesReset.testBit c.channel.toNat = true := by
  obtain ⟨t, ch, note, vel, dur⟩ := c
  subst ht
  exact claimBit_self _ _

lemma pass1Step_claims_CC (c : command) (m : Masks) (ht : c.type = kCC) :
    (((pass1Step c m).2).CCs c.note).testBit c.channel.toNat = true := by
  obtain ⟨t, ch, note, vel, dur⟩ := c
  subst ht
  cases hb : bitGet (m.CCs note) ch with
  | true =>
      simp only [pass1Step, hb, if_true]
      exact (bitGet_iff _ _).1 hb
  | false =>
      simp only [pass1Step, hb, Bool.false_eq_true, if_false, if_pos rfl]
      exact claimBit_self _ _

lemma pass1_complete_off (l : List command) (m : Masks) (c : command)
    (hc : c ∈ l) (ht : c.type = kNoteOff) :
    (((pass1 l m).2).noteOffs c.note).testBit c.channel.toNat = true := by
  induction l with
  | nil => cases hc
  | cons d rest ih =>
      rw [pass1_cons]
      rcases List.mem_cons.mp hc with rfl | hmem
      · exact pass1Step_claims_off _ _ ht
      · exact (pass1Step_maskLE d (pass1 rest m).2).2.1 _ _ (ih hmem)

lemma pass1_complete_reset (l : List command) (m : Masks) (c : command)
    (hc : c ∈ l) (ht : c.type = kResetNotes) :
    ((pass1 l m).2).notesReset.testBit c.channel.toNat = true := by
  induction l with
  | nil => cases hc
  | cons d rest ih =>
      rw [pass1_cons]
      rcases List.mem_cons.mp hc with rfl | hmem
      · exact pass1Step_claims_reset _ _ ht
      · exact (pass1Step_maskLE d (pass1 rest m).2).2.2.2.1 _ (ih hmem)

lemma pass1_complete_CC (l : List command) (m : Masks) (c : command)
    (hc : c ∈ l) (ht : c.type = kCC) :
    (((pass1 l m).2).CCs c.note).testBit c.channel.toNat = true := by
  induction l with
  | nil => cases hc
  | cons d rest ih =>
      rw [pass1_cons]
      rcases List.mem_cons.mp hc with rfl | hmem
      · exact pass1Step_claims_CC _ _ ht
      · exact (pass1Step_maskLE d (pass1 rest m).2).2.2.1 _ _ (ih hmem)

/-! ## Behaviour of one pass-1 step on each command kind -/

lemma pass1Step_on_invalid (c : command) (m : Masks) (hon : onKind c.type)
    (h : bitGet (m.noteOffs c.note) c.channel = true ∨
         bitGet (m.noteOns c.note) c.channel = true ∨
         bitGet m.notesReset c.channel = true) :
    pass1Step c m = ({ c with type := kInvalid }, m) := by
  obtain ⟨t, ch, note, vel, dur⟩ := c
  rcases hon with ht | ht <;> subst ht <;>
    simp only [pass1Step] <;>
    rcases h with h | h | h <;> simp [h, ite_self]

lemma pass1Step_on_survive (c : command) (m : Masks) (hon : onKind c.type)
    (h1 : bitGet (m.noteOffs c.note) c.channel = false)
    (h2 : bitGet (m.noteOns c.note) c.channel = false)
    (h3 : bitGet m.notesReset c.channel = false) :
    pass1Step c m =
      (c, { m with noteOns := fun n => if n = c.note then claimBit (m.noteOns n) c.channel else m.noteOns n }) := by
  obtain ⟨t, ch, note, vel, dur⟩ := c
  rcases hon with ht | ht <;> subst ht <;> simp [pass1Step, h1, h2, h3]

lemma pass1Step_noteOff_keep (c : command) (m : Masks) (ht : c.type = kNoteOff) :
    (pass1Step c m).1 = c := by
  obtain ⟨t, ch, note, vel, dur⟩ := c
  subst ht
  rfl

lemma pass1Step_CC_invalid (c : command) (m : Masks) (ht : c.type = kCC)
    (h : bitGet (m.CCs c.note) c.channel = true) :
    pass1Step c m = ({ c with type := kInvalid }, m) := by
  obtain ⟨t, ch, note, vel, dur⟩ := c
  subst ht
  simp [pass1Step, h]

lemma pass1Step_CC_survive (c : command) (m : Masks) (ht : c.type = kCC)
    (h : bitGet (m.CCs c.note) c.channel = false) :
    (pass1Step c m).1 = c := by
  obtain ⟨t, ch, note, vel, dur⟩ := c
  subst ht
  simp [pass1Step, h]

/-! ## The conflict lemma: a note-on-kind command anywhere in the processed
suffix forces one of the three bits a later-scanned note-on will test -/

lemma pass1_on_conflict (l : List command) (m : Masks) (note ch : Int)
    (h : ∃ c ∈ l, onKind c.type ∧ c.note = note ∧ c.channel = ch) :
    (((pass1 l m).2).noteOns note).testBit ch.toNat = true ∨
    (((pass1 l m).2).noteOffs note).testBit ch.toNat = true ∨
    ((pass1 l m).2).notesReset.testBit ch.toNat = true := by
  induction l with
  | nil => rcases h with ⟨c, hc, _⟩; cases hc
  | cons d rest ih =>
      rw [pass1_cons]
      rcases h with ⟨c, hc, hon, hn, hch⟩
      rcases List.mem_cons.mp hc with rfl | hmem
      · subst hn
        subst hch
        have lift := pass1Step_maskLE c (pass1 rest m).2
        cases h1 : bitGet (((pass1 rest m).2).noteOffs c.note) c.channel with
        | true => exact Or.inr (Or.inl (lift.2.1 _ _ ((bitGet_iff _ _).1 h1)))
        | false =>
        cases h2 : bitGet (((pass1 rest m).2).noteOns c.note) c.channel with
        | true => exact Or.inl (lift.1 _ _ ((bitGet_iff _ _).1 h2))
        | false =>
        cases h3 : bitGet ((pass1 rest m).2).notesReset c.channel with
        | true => exact Or.inr (Or.inr (lift.2.2.2.1 _ ((bitGet_iff _ _).1 h3)))
        | false =>
            rw [pass1Step_on_survive c _ hon h1 h2 h3]
            refine Or.inl ?_
            simp only [if_pos rfl]
            exact claimBit_self _ _
      · rcases ih ⟨c, hmem, hon, hn, hch⟩ with h' | h' | h'
        · exact Or.inl ((pass1Step_maskLE d (pass1 rest m).2).1 _ _ h')
        · exact Or.inr (Or.inl ((pass1Step_maskLE d (pass1 rest m).2).2.1 _ _ h'))
        · exact Or.inr (Or.inr ((pass1Step_maskLE d (pass1 rest m).2).2.2.2.1 _ h'))

/-! ## Clear bits: starting from the zero masks, a bit absent from the
processed suffix stays clear (assuming nonnegative channels, as established
by the API clamping) -/

lemma pass1_off_clear (post : List command) (note ch : Int) (hch : 0 ≤ ch)
    (hpost : ∀ c ∈ post, 0 ≤ c.channel)
    (hno : ¬ ∃ c ∈ post, c.type = kNoteOff ∧ c.note = note ∧ c.channel = ch) :
    bitGet (((pass1 post initMasks).2).noteOffs note) ch = false := by
  cases hb : bitGet (((pass1 post initMasks).2).noteOffs note) ch with
  | false => rfl
  | true =>
      exfalso
      have hb' := (bitGet_iff _ _).1 hb
      rcases pass1_sound_offs post initMasks note ch.toNat hb' with h0 | ⟨c, hc, ht, hn, hk⟩
      · simp [initMasks, Nat.zero_testBit] at h0
      · exact hno ⟨c, hc, ht, hn, by have := hpost c hc; omega⟩

lemma pass1_ons_clear (post : List command) (note ch : Int) (hch : 0 ≤ ch)
    (hpost : ∀ c ∈ post, 0 ≤ c.channel)
    (hno : ¬ ∃ c ∈ post, onKind c.type ∧ c.note = note ∧ c.channel = ch) :
    bitGet (((pass1 post initMasks).2).noteOns note) ch = false := by
  cases hb : bitGet (((pass1 post initMasks).2).noteOns note) ch with
  | false => rfl
  | true =>
      exfalso
      have hb' := (bitGet_iff _ _).1 hb
      rcases pass1_sound_ons post initMasks note ch.toNat hb' with h0 | ⟨c, hc, ht, hn, hk⟩
      · simp [initMasks, Nat.zero_testBit] at h0
      · exact hno ⟨c, hc, ht, hn, by have := hpost c hc; omega⟩

lemma pass1_reset_clear (post : List command) (ch : Int) (hch : 0 ≤ ch)
    (hpost : ∀ c ∈ post, 0 ≤ c.channel)
    (hno : ¬ ∃ c ∈ post, c.type = kResetNotes ∧ c.channel = ch) :
    bitGet ((pass1 post initMasks).2).notesReset ch = false := by
  cases hb : bitGet ((pass1 post initMasks).2).notesReset ch with
  | false => rfl
  | true =>
      exfalso
      have hb' := (bitGet_iff _ _).1 hb
      rcases pass1_sound_reset post initMasks ch.toNat hb' with h0 | ⟨c, hc, ht, hk⟩
      · simp [initMasks, Nat.zero_testBit] at h0
      · exact hno ⟨c, hc, ht, by have := hpost c hc; omega⟩

lemma pass1_CC_clear (post : List command) (note ch : Int) (hch : 0 ≤ ch)
    (hpost : ∀ c ∈ post, 0 ≤ c.channel)
    (hno : ¬ ∃ c ∈ post, c.type = kCC ∧ c.note = note ∧ c.channel = ch) :
    bitGet (((pass1 post initMasks).2).CCs note) ch = false := by
  cases hb : bitGet (((pass1 post initMasks).2).CCs note) ch with
  | false => rfl
  | true =>
      exfalso
      have hb' := (bitGet_iff _ _).1 hb
      rcases pass1_sound_CCs post initMasks note ch.toNat hb' with h0 | ⟨c, hc, ht, hn, hk⟩
      · simp [initMasks, Nat.zero_testBit] at h0
      · exact hno ⟨c, hc, ht, hn, by have := hpost c hc; omega⟩

/-! ## Structural lemmas about pass 2 -/

lemma pass2_eq (playing : Int → Int → Bool) (l : List command) :
    pass2 playing l = (l.map (pass2subst playing), l.filter (pass2keep playing)) := by
  induction l with
  | nil => rfl
  | cons c rest ih =>
      simp only [pass2, ih, List.map_cons, List.filter_cons]
      by_cases h1 : (c.type = kNoteOn ∨ c.type = kNoteOnWithDuration)
      · by_cases h2 : playing c.channel c.note
        · simp [pass2subst, pass2keep, h1, h2]
        · simp [pass2subst, pass2keep, h1, h2]
      · simp [pass2subst, pass2keep, h1]

lemma pass2subst_of_not_on (playing : Int → Int → Bool) (c : command)
    (h : ¬ onKind c.type) : pass2subst playing c = c := by
  simp [pass2subst, pass2keep, onKind] at h ⊢
  intro h1 h2
  exact absurd h1 (by tauto)

lemma mem_immediateSends_of_subst (cmds : List command) (playing : Int → Int → Bool)
    (c : command) (hc : c ∈ (pass1 cmds initMasks).1)
    (hs : pass2subst playing c = c) (ht : c.type ≠ kInvalid) :
    c ∈ immediateSends cmds playing := by
  unfold immediateSends
  rw [pass2_eq]
  refine List.mem_filter.mpr ⟨?_, by simpa using ht⟩
  exact hs ▸ List.mem_map_of_mem _ hc

/-! ## Claim C4 -/

/-- C4: the backward dedup pass never invalidates a `NoteOff`: whatever
commands surround it, the `NoteOff` occurrence survives pass 1 unchanged (at
its own position), its (note, channel) bit is claimed in the `noteOffs`
bitmask, and the `NoteOff` reaches the immediate send list. -/
theorem c4_noteoff_never_invalidated (pre post : List command) (off : command)
    (playing : Int → Int → Bool) (ht : off.type = kNoteOff) :
    (pass1 (pre ++ off :: post) initMasks).1 =
      (pass1 pre (pass1 (off :: post) initMasks).2).1 ++ off :: (pass1 post initMasks).1 ∧
    (((pass1 (pre ++ off :: post) initMasks).2).noteOffs off.note).testBit off.channel.toNat = true ∧
    off ∈ immediateSends (pre ++ off :: post) playing := by
  have hkeep : ∀ m, (pass1Step off m).1 = off := fun m => pass1Step_noteOff_keep off m ht
  have hsplit : (pass1 (pre ++ off :: post) initMasks).1 =
      (pass1 pre (pass1 (off :: post) initMasks).2).1 ++ off :: (pass1 post initMasks).1 := by
    rw [pass1_append]
    simp only [pass1_cons, hkeep]
  refine ⟨hsplit, ?_, ?_⟩
  · exact pass1_complete_off _ initMasks off (by simp) ht
  · refine mem_immediateSends_of_subst _ _ _ ?_ ?_ (by simp [ht])
    · rw [hsplit]
      exact List.mem_append_right _ (List.mem_cons_self _ _)
    · exact pass2subst_of_not_on _ _ (by simp [onKind, ht])

/-- Witness for C4 at a concrete batch. -/
theorem c4_witness :
    (pass1 ([] ++ (⟨kNoteOff, 0, 60, 0, 0⟩ : command) :: []) initMasks).1 =
      (pass1 [] (pass1 ((⟨kNoteOff, 0, 60, 0, 0⟩ : command) :: []) initMasks).2).1 ++
        (⟨kNoteOff, 0, 60, 0, 0⟩ : command) :: (pass1 [] initMasks).1 ∧
    (((pass1 ([] ++ (⟨kNoteOff, 0, 60, 0, 0⟩ : command) :: []) initMasks).2).noteOffs 60).testBit
        (Int.toNat 0) = true ∧
    (⟨kNoteOff, 0, 60, 0, 0⟩ : command) ∈
      immediateSends ([] ++ (⟨kNoteOff, 0, 60, 0, 0⟩ : command) :: []) (fun _ _ => false) :=
  c4_noteoff_never_invalidated [] [] ⟨kNoteOff, 0, 60, 0, 0⟩ (fun _ _ => false) rfl

/-! ## Claim C5 -/

/-- C5: a `ResetNotes` for channel C invalidates every earlier
note-on-kind command on channel C in the batch (part 1), and a note-on later
in the batch than any conflicting command — in particular one occurring after
every `ResetNotes` for its channel — survives pass 1 unchanged (part 2), so a
`ResetNotes` never invalidates a note-on occurring after it. -/
theorem c5_resetnotes_scope :
    (∀ (pre mid post : List command) (onc r : command), onKind onc.type →
      r.type = kResetNotes → r.channel = onc.channel →
      ∃ A, (pass1 (pre ++ onc :: (mid ++ r :: post)) initMasks).1 =
            A ++ { onc with type := kInvalid } :: (pass1 (mid ++ r :: post) initMasks).1 ∧
          A.length = pre.length) ∧
    (∀ (pre post : List command) (onc : command), onKind onc.type → 0 ≤ onc.channel →
      (∀ c ∈ post, 0 ≤ c.channel) →
      (¬ ∃ c ∈ post, c.type = kNoteOff ∧ c.note = onc.note ∧ c.channel = onc.channel) →
      (¬ ∃ c ∈ post, onKind c.type ∧ c.note = onc.note ∧ c.channel = onc.channel) →
      (¬ ∃ c ∈ post, c.type = kResetNotes ∧ c.channel = onc.channel) →
      ∃ A, (pass1 (pre ++ onc :: post) initMasks).1 = A ++ onc :: (pass1 post initMasks).1 ∧
          A.length = pre.length) := by
  constructor
  · intro pre mid post onc r hon htr hchr
    have hbit : ((pass1 (mid ++ r :: post) initMasks).2.notesReset).testBit onc.channel.toNat = true := by
      have hr := pass1_complete_reset (mid ++ r :: post) initMasks r (by simp) htr
      rwa [hchr] at hr
    have hstep : pass1Step onc (pass1 (mid ++ r :: post) initMasks).2 =
        ({ onc with type := kInvalid }, (pass1 (mid ++ r :: post) initMasks).2) :=
      pass1Step_on_invalid _ _ hon (Or.inr (Or.inr ((bitGet_iff _ _).2 hbit)))
    refine ⟨(pass1 pre (pass1 (onc :: (mid ++ r :: post)) initMasks).2).1, ?_, pass1_length _ _⟩
    rw [pass1_append]
    simp only [pass1_cons, hstep]
  · intro pre post onc hon hch hpost hoff hons hres
    have h1 := pass1_off_clear post onc.note onc.channel hch hpost hoff
    have h2 := pass1_ons_clear post onc.note onc.channel hch hpost hons
    have h3 := pass1_reset_clear post onc.channel hch hpost hres
    have hstep := pass1Step_on_survive onc _ hon h1 h2 h3
    refine ⟨(pass1 pre (pass1 (onc :: post) initMasks).2).1, ?_, pass1_length _ _⟩
    rw [pass1_append]
    simp only [pass1_cons, hstep]

/-- Witness for C5 at concrete batches. -/
theorem c5_witness :
    (∃ A, (pass1 ([] ++ (⟨kNoteOn, 3, 60, 100, 0⟩ : command) ::
              ([] ++ (⟨kResetNotes, 3, 0, 0, 0⟩ : command) :: [])) initMasks).1 =
          A ++ ({ (⟨kNoteOn, 3, 60, 100, 0⟩ : command) with type := kInvalid }) ::
            (pass1 ([] ++ (⟨kResetNotes, 3, 0, 0, 0⟩ : command) :: []) initMasks).1 ∧
        A.length = List.length ([] : List command)) ∧
    (∃ A, (pass1 ([(⟨kResetNotes, 3, 0, 0, 0⟩ : command)] ++
              (⟨kNoteOn, 3, 60, 100, 0⟩ : command) :: []) initMasks).1 =
          A ++ (⟨kNoteOn, 3, 60, 100, 0⟩ : command) :: (pass1 [] initMasks).1 ∧
        A.length = List.length [(⟨kResetNotes, 3, 0, 0, 0⟩ : command)]) :=
  ⟨c5_resetnotes_scope.1 [] [] [] ⟨kNoteOn, 3, 60, 100, 0⟩ ⟨kResetNotes, 3, 0, 0, 0⟩
      (Or.inl rfl) rfl rfl,
   c5_resetnotes_scope.2 [⟨kResetNotes, 3, 0, 0, 0⟩] [] ⟨kNoteOn, 3, 60, 100, 0⟩
      (Or.inl rfl) (by norm_num) (by simp) (by simp) (by simp) (by simp)⟩

/-! ## Claim C3 -/

/-- C3 counterexample: for the spec's own scenario
`[NoteOn(ch 0, note 60, vel 100), NoteOff(ch 0, note 60)]` the immediate list
is `[NoteOff(0, 60)]`, not `[]`: the NoteOn is cancelled but the NoteOff
survives (pass 1 never invalidates a NoteOff), contradicting the claim that
the immediate list contains neither command. -/
theorem c3_counterexample :
    immediateSends [⟨kNoteOn, 0, 60, 100, 0⟩, ⟨kNoteOff, 0, 60, 0, 0⟩] (fun _ _ => false) =
      [⟨kNoteOff, 0, 60, 0, 0⟩] ∧
    deferredList [⟨kNoteOn, 0, 60, 100, 0⟩, ⟨kNoteOff, 0, 60, 0, 0⟩] (fun _ _ => false) = [] ∧
    immediateSends [⟨kNoteOn, 0, 60, 100, 0⟩, ⟨kNoteOff, 0, 60, 0, 0⟩] (fun _ _ => false) ≠ [] := by
  refine ⟨by decide, by decide, by decide⟩

/-- C3 (amended): when a NoteOn is followed later in the batch by a NoteOff
for the same (channel, note), pass 1 invalidates the NoteOn occurrence — so
it does not reach the immediate list — but the NoteOff itself survives into
the immediate send list. -/
theorem c3_noteon_cancelled_noteoff_survives (pre mid post : List command)
    (onc off : command) (playing : Int → Int → Bool) (hon : onKind onc.type)
    (ht : off.type = kNoteOff) (hn : off.note = onc.note) (hc : off.channel = onc.channel) :
    ∃ A, (pass1 (pre ++ onc :: (mid ++ off :: post)) initMasks).1 =
          A ++ { onc with type := kInvalid } :: (pass1 (mid ++ off :: post) initMasks).1 ∧
        A.length = pre.length ∧
        off ∈ immediateSends (pre ++ onc :: (mid ++ off :: post)) playing := by
  have hbit : (((pass1 (mid ++ off :: post) initMasks).2).noteOffs onc.note).testBit
      onc.channel.toNat = true := by
    have hoff := pass1_complete_off (mid ++ off :: post) initMasks off (by simp) ht
    rwa [hn, hc] at hoff
  have hstep : pass1Step onc (pass1 (mid ++ off :: post) initMasks).2 =
      ({ onc with type := kInvalid }, (pass1 (mid ++ off :: post) initMasks).2) :=
    pass1Step_on_invalid _ _ hon (Or.inl ((bitGet_iff _ _).2 hbit))
  have hkeep : ∀ m, (pass1Step off m).1 = off := fun m => pass1Step_noteOff_keep off m ht
  have hsplit : (pass1 (pre ++ onc :: (mid ++ off :: post)) initMasks).1 =
      (pass1 pre (pass1 (onc :: (mid ++ off :: post)) initMasks).2).1 ++
        { onc with type := kInvalid } :: (pass1 (mid ++ off :: post) initMasks).1 := by
    rw [pass1_append]
    simp only [pass1_cons, hstep]
  refine ⟨(pass1 pre (pass1 (onc :: (mid ++ off :: post)) initMasks).2).1, hsplit,
    pass1_length _ _, ?_⟩
  have hmem : off ∈ (pass1 (pre ++ onc :: (mid ++ off :: post)) initMasks).1 := by
    rw [hsplit]
    refine List.mem_append_right _ (List.mem_cons_of_mem _ ?_)
    have hsplit2 : (pass1 (mid ++ off :: post) initMasks).1 =
        (pass1 mid (pass1 (off :: post) initMasks).2).1 ++ off :: (pass1 post initMasks).1 := by
      rw [pass1_append]
      simp only [pass1_cons, hkeep]
    rw [hsplit2]
    exact List.mem_append_right _ (List.mem_cons_self _ _)
  exact mem_immediateSends_of_subst _ _ _ hmem
    (pass2subst_of_not_on _ _ (by simp [onKind, ht])) (by simp [ht])

/-- Witness for the amended C3 at a concrete batch. -/
theorem c3_witness :
    ∃ A, (pass1 ([] ++ (⟨kNoteOn, 0, 60, 100, 0⟩ : command) ::
            ([] ++ (⟨kNoteOff, 0, 60, 0, 0⟩ : command) :: [])) initMasks).1 =
          A ++ ({ (⟨kNoteOn, 0, 60, 100, 0⟩ : command) with type := kInvalid }) ::
            (pass1 ([] ++ (⟨kNoteOff, 0, 60, 0, 0⟩ : command) :: []) initMasks).1 ∧
        A.length = List.length ([] : List command) ∧
        (⟨kNoteOff, 0, 60, 0, 0⟩ : command) ∈
          immediateSends ([] ++ (⟨kNoteOn, 0, 60, 100, 0⟩ : command) ::
            ([] ++ (⟨kNoteOff, 0, 60, 0, 0⟩ : command) :: [])) (fun _ _ => false) :=
  c3_noteon_cancelled_noteoff_survives [] [] [] ⟨kNoteOn, 0, 60, 100, 0⟩
    ⟨kNoteOff, 0, 60, 0, 0⟩ (fun _ _ => false) (Or.inl rfl) rfl rfl rfl

/-! ## Claim C6 -/

/-- C6: among the CC commands of a batch sharing one (controller, channel)
key, exactly the last one (by batch position) survives: the last one passes
pass 1 unchanged and reaches the immediate send list with its value (part 1),
and every earlier one is invalidated at its position (part 2). -/
theorem c6_cc_last_wins :
    (∀ (pre post : List command) (d : command) (playing : Int → Int → Bool),
      d.type = kCC → 0 ≤ d.channel → (∀ c ∈ post, 0 ≤ c.channel) →
      (¬ ∃ c ∈ post, c.type = kCC ∧ c.note = d.note ∧ c.channel = d.channel) →
      ∃ A, (pass1 (pre ++ d :: post) initMasks).1 = A ++ d :: (pass1 post initMasks).1 ∧
          A.length = pre.length ∧ d ∈ immediateSends (pre ++ d :: post) playing) ∧
    (∀ (pre mid post : List command) (e d : command),
      e.type = kCC → d.type = kCC → d.note = e.note → d.channel = e.channel →
      ∃ A, (pass1 (pre ++ e :: (mid ++ d :: post)) initMasks).1 =
            A ++ { e with type := kInvalid } :: (pass1 (mid ++ d :: post) initMasks).1 ∧
          A.length = pre.length) := by
  constructor
  · intro pre post d playing htd hch hpost hno
    have hclear := pass1_CC_clear post d.note d.channel hch hpost hno
    have hkeep : (pass1Step d (pass1 post initMasks).2).1 = d :=
      pass1Step_CC_survive d _ htd hclear
    have hsplit : (pass1 (pre ++ d :: post) initMasks).1 =
        (pass1 pre (pass1 (d :: post) initMasks).2).1 ++ d :: (pass1 post initMasks).1 := by
      rw [pass1_append]
      simp only [pass1_cons, hkeep]
    refine ⟨(pass1 pre (pass1 (d :: post) initMasks).2).1, hsplit, pass1_length _ _, ?_⟩
    refine mem_immediateSends_of_subst _ _ _ ?_
      (pass2subst_of_not_on _ _ (by simp [onKind, htd])) (by simp [htd])
    rw [hsplit]
    exact List.mem_append_right _ (List.mem_cons_self _ _)
  · intro pre mid post e d hte htd hn hc
    have hbit : (((pass1 (mid ++ d :: post) initMasks).2).CCs e.note).testBit
        e.channel.toNat = true := by
      have hd := pass1_complete_CC (mid ++ d :: post) initMasks d (by simp) htd
      rwa [hn, hc] at hd
    have hstep : pass1Step e (pass1 (mid ++ d :: post) initMasks).2 =
        ({ e with type := kInvalid }, (pass1 (mid ++ d :: post) initMasks).2) :=
      pass1Step_CC_invalid _ _ hte ((bitGet_iff _ _).2 hbit)
    refine ⟨(pass1 pre (pass1 (e :: (mid ++ d :: post)) initMasks).2).1, ?_, pass1_length _ _⟩
    rw [pass1_append]
    simp only [pass1_cons, hstep]

/-- Witness for C6 at concrete batches. -/
theorem c6_witness :
    (∃ A, (pass1 ([(⟨kCC, 1, 7, 40, 0⟩ : command)] ++ (⟨kCC, 1, 7, 90, 0⟩ : command) :: []) initMasks).1 =
          A ++ (⟨kCC, 1, 7, 90, 0⟩ : command) :: (pass1 [] initMasks).1 ∧
        A.length = List.length [(⟨kCC, 1, 7, 40, 0⟩ : command)] ∧
        (⟨kCC, 1, 7, 90, 0⟩ : command) ∈
          immediateSends ([(⟨kCC, 1, 7, 40, 0⟩ : command)] ++ (⟨kCC, 1, 7, 90, 0⟩ : command) :: [])
            (fun _ _ => false)) ∧
    (∃ A, (pass1 ([] ++ (⟨kCC, 1, 7, 40, 0⟩ : command) ::
              ([] ++ (⟨kCC, 1, 7, 90, 0⟩ : command) :: [])) initMasks).1 =
          A ++ ({ (⟨kCC, 1, 7, 40, 0⟩ : command) with type := kInvalid }) ::
            (pass1 ([] ++ (⟨kCC, 1, 7, 90, 0⟩ : command) :: []) initMasks).1 ∧
        A.length = List.length ([] : List command)) :=
  ⟨c6_cc_last_wins.1 [⟨kCC, 1, 7, 40, 0⟩] [] ⟨kCC, 1, 7, 90, 0⟩ (fun _ _ => false)
      rfl (by norm_num) (by simp) (by simp),
   c6_cc_last_wins.2 [] [] [] ⟨kCC, 1, 7, 40, 0⟩ ⟨kCC, 1, 7, 90, 0⟩ rfl rfl rfl rfl⟩

/-! ## Claim C2 -/

/-- C2: if a note-on-kind command survives pass 1 (decomposition hypothesis)
and its note is marked playing before the flush, pass 2 substitutes — in
place, at the same position — a `NoteOff` for it in the immediate list, moves
the original command to the deferred list, and the deferred list is exactly
the in-order sublist of surviving playing note-ons (so deferred items keep
their original batch order); the substituted `NoteOff` reaches the immediate
send list. -/
theorem c2_retrigger_split (cmds : List command) (playing : Int → Int → Bool)
    (pre post : List command) (c : command)
    (hdec : (pass1 cmds initMasks).1 = pre ++ c :: post)
    (hon : onKind c.type) (hp : playing c.channel c.note = true) :
    (pass2 playing (pass1 cmds initMasks).1).1 =
      pre.map (pass2subst playing) ++
        { c with type := kNoteOff } :: post.map (pass2subst playing) ∧
    deferredList cmds playing =
      pre.filter (pass2keep playing) ++ c :: post.filter (pass2keep playing) ∧
    { c with type := kNoteOff } ∈ immediateSends cmds playing := by
  have hkeep : pass2keep playing c = true := by
    simp only [pass2keep, hp, Bool.and_true, decide_eq_true_eq]
    exact hon
  have hsubst : pass2subst playing c = { c with type := kNoteOff } := by
    simp [pass2subst, hkeep]
  refine ⟨?_, ?_, ?_⟩
  · rw [pass2_eq, hdec, List.map_append, List.map_cons, hsubst]
  · unfold deferredList
    rw [pass2_eq, hdec, List.filter_append, List.filter_cons]
    simp [hkeep]
  · unfold immediateSends
    rw [pass2_eq]
    refine List.mem_filter.mpr ⟨?_, by simp⟩
    rw [hdec, List.map_append, List.map_cons, hsubst]
    exact List.mem_append_right _ (List.mem_cons_self _ _)

/-- Witness for C2 at the spec's own scenario: batch `[NoteOn(ch 2, note 10,
vel 5)]` with (2,10) already playing. -/
theorem c2_witness :
    (pass2 (fun a b => decide (a = 2 ∧ b = 10))
        (pass1 [(⟨kNoteOn, 2, 10, 5, 0⟩ : command)] initMasks).1).1 =
      List.map (pass2subst (fun a b => decide (a = 2 ∧ b = 10))) [] ++
        ({ (⟨kNoteOn, 2, 10, 5, 0⟩ : command) with type := kNoteOff }) ::
          List.map (pass2subst (fun a b => decide (a = 2 ∧ b = 10))) [] ∧
    deferredList [(⟨kNoteOn, 2, 10, 5, 0⟩ : command)] (fun a b => decide (a = 2 ∧ b = 10)) =
      List.filter (pass2keep (fun a b => decide (a = 2 ∧ b = 10))) [] ++
        (⟨kNoteOn, 2, 10, 5, 0⟩ : command) ::
          List.filter (pass2keep (fun a b => decide (a = 2 ∧ b = 10))) [] ∧
    ({ (⟨kNoteOn, 2, 10, 5, 0⟩ : command) with type := kNoteOff }) ∈
      immediateSends [(⟨kNoteOn, 2, 10, 5, 0⟩ : command)] (fun a b => decide (a = 2 ∧ b = 10)) :=
  c2_retrigger_split [⟨kNoteOn, 2, 10, 5, 0⟩] (fun a b => decide (a = 2 ∧ b = 10))
    [] [] ⟨kNoteOn, 2, 10, 5, 0⟩ (by decide) (Or.inl rfl) (by decide)

/-! ## Claim C1 -/

lemma applyOps_cons (op : midiOp) (rest : List midiOp) (st : NoteStateMx) :
    applyOps (op :: rest) st = applyOps rest (applyOp op st) := rfl

/-- The generation counter of a note after a sequence of send events equals
the starting value plus the number of retriggers, modulo 256 (the `uint8_t`
width of `lastNoteIDs`). -/
lemma applyOps_lastID (ops : List midiOp) (st : NoteStateMx) (ch note : Int)
    (h : st.lastNoteIDs ch note < 256) :
    (applyOps ops st).lastNoteIDs ch note =
      (st.lastNoteIDs ch note + countRetrig ch note ops) % 256 := by
  induction ops generalizing st with
  | nil =>
      simp [applyOps, countRetrig, Nat.mod_eq_of_lt h]
  | cons op rest ih =>
      rw [applyOps_cons]
      cases op with
      | opNoteOn c n v =>
          by_cases he : c = ch ∧ n = note
          · obtain ⟨rfl, rfl⟩ := he
            have hval : (applyOp (midiOp.opNoteOn c n v) st).lastNoteIDs c n =
                (st.lastNoteIDs c n + 1) % 256 := by
              simp [applyOp, sendNoteOnSt]
            rw [ih _ (by rw [hval]; exact Nat.mod_lt _ (by norm_num)), hval]
            have hcnt : countRetrig c n (midiOp.opNoteOn c n v :: rest) =
                1 + countRetrig c n rest := by simp [countRetrig]
            rw [hcnt]
            omega
          · have he' : ¬ (ch = c ∧ note = n) := fun hx => he ⟨hx.1.symm, hx.2.symm⟩
            have hval : (applyOp (midiOp.opNoteOn c n v) st).lastNoteIDs ch note =
                st.lastNoteIDs ch note := by
              simp [applyOp, sendNoteOnSt, he']
            rw [ih _ (by rw [hval]; exact h), hval]
            simp [countRetrig, he]
      | opNoteOnDur c n v d =>
          by_cases he : c = ch ∧ n = note
          · obtain ⟨rfl, rfl⟩ := he
            have hval : (applyOp (midiOp.opNoteOnDur c n v d) st).lastNoteIDs c n =
                (st.lastNoteIDs c n + 1) % 256 := by
              simp [applyOp, sendNoteOnWithDurationSt, sendNoteOnSt]
            rw [ih _ (by rw [hval]; exact Nat.mod_lt _ (by norm_num)), hval]
            have hcnt : countRetrig c n (midiOp.opNoteOnDur c n v d :: rest) =
                1 + countRetrig c n rest := by simp [countRetrig]
            rw [hcnt]
            omega
          · have he' : ¬ (ch = c ∧ note = n) := fun hx => he ⟨hx.1.symm, hx.2.symm⟩
            have hval : (applyOp (midiOp.opNoteOnDur c n v d) st).lastNoteIDs ch note =
                st.lastNoteIDs ch note := by
              simp [applyOp, sendNoteOnWithDurationSt, sendNoteOnSt, he']
            rw [ih _ (by rw [hval]; exact h), hval]
            simp [countRetrig, he]
      | opNoteOff c n =>
          have hval : (applyOp (midiOp.opNoteOff c n) st).lastNoteIDs ch note =
              st.lastNoteIDs ch note := rfl
          rw [ih _ (by rw [hval]; exact h), hval]
          simp [countRetrig]
      | opResetNotes c =>
          have hval : (applyOp (midiOp.opResetNotes c) st).lastNoteIDs ch note =
              st.lastNoteIDs ch note := rfl
          rw [ih _ (by rw [hval]; exact h), hval]
          simp [countRetrig]

/-- C1 counterexample: schedule a note-off for (0, 60) (snapshot generation
taken right after the duration-bearing note-on is sent), then *explicitly*
turn the note off with `sendNoteOff`.  The generation is unchanged (equal to
the snapshot), so at fire time the task still sends a NoteOff — the claim
that the generations are unequal whenever the note has been explicitly
turned off between scheduling and fire time is false. -/
theorem c1_counterexample :
    (sendNoteOffSt 0 60 (sendNoteOnWithDurationSt 0 60 st0)).notePlaying 0 60 = false ∧
    (sendNoteOffSt 0 60 (sendNoteOnWithDurationSt 0 60 st0)).lastNoteIDs 0 60 =
      (sendNoteOnWithDurationSt 0 60 st0).lastNoteIDs 0 60 ∧
    (noteOffFire 0 60 ((sendNoteOnWithDurationSt 0 60 st0).lastNoteIDs 0 60)
        (sendNoteOffSt 0 60 (sendNoteOnWithDurationSt 0 60 st0))).2 = true := by
  refine ⟨by decide, by decide, by decide⟩

/-- C1 (amended): at fire time the scheduled note-off task acts (sends a
NoteOff and clears the playing flag) exactly when the note's current
generation equals the snapshot, and leaves the state untouched otherwise; the
generation equals the snapshot iff the number of retriggers since scheduling
is a multiple of 256 (`uint8_t` wraparound); an explicit note-off leaves the
generation unchanged, so it does not by itself cancel the task. -/
theorem c1_generation_cancel (st : NoteStateMx) (ch note : Int) (ops : List midiOp)
    (h : st.lastNoteIDs ch note < 256) :
    ((noteOffFire ch note (st.lastNoteIDs ch note) (applyOps ops st)).2 = true ↔
        (applyOps ops st).lastNoteIDs ch note = st.lastNoteIDs ch note) ∧
    ((noteOffFire ch note (st.lastNoteIDs ch note) (applyOps ops st)).2 = true ↔
        countRetrig ch note ops % 256 = 0) ∧
    ((noteOffFire ch note (st.lastNoteIDs ch note) (applyOps ops st)).2 = true →
        (noteOffFire ch note (st.lastNoteIDs ch note)
          (applyOps ops st)).1.notePlaying ch note = false) ∧
    ((noteOffFire ch note (st.lastNoteIDs ch note) (applyOps ops st)).2 = false →
        (noteOffFire ch note (st.lastNoteIDs ch note) (applyOps ops st)).1 = applyOps ops st) ∧
    (∀ (a b : Int) (s : NoteStateMx), (sendNoteOffSt a b s).lastNoteIDs = s.lastNoteIDs) := by
  have hk := applyOps_lastID ops st ch note h
  unfold noteOffFire
  split_ifs with heq
  · rw [hk] at heq
    refine ⟨by simp [hk, heq], ?_, by simp, by simp, fun a b s => rfl⟩
    constructor
    · intro _
      omega
    · intro _
      rfl
  · rw [hk] at heq
    have hne : ¬ (countRetrig ch note ops % 256 = 0) := fun hz => heq (by omega)
    exact ⟨by simp [hk, heq], by simp [hne], by simp, fun _ => rfl, fun a b s => rfl⟩

/-- Witness for the amended C1: one explicit note-off between scheduling and
fire time (zero retriggers). -/
theorem c1_witness :
    ((noteOffFire 0 60 (st0.lastNoteIDs 0 60) (applyOps [midiOp.opNoteOff 0 60] st0)).2 = true ↔
        (applyOps [midiOp.opNoteOff 0 60] st0).lastNoteIDs 0 60 = st0.lastNoteIDs 0 60) ∧
    ((noteOffFire 0 60 (st0.lastNoteIDs 0 60) (applyOps [midiOp.opNoteOff 0 60] st0)).2 = true ↔
        countRetrig 0 60 [midiOp.opNoteOff 0 60] % 256 = 0) ∧
    ((noteOffFire 0 60 (st0.lastNoteIDs 0 60) (applyOps [midiOp.opNoteOff 0 60] st0)).2 = true →
        (noteOffFire 0 60 (st0.lastNoteIDs 0 60)
          (applyOps [midiOp.opNoteOff 0 60] st0)).1.notePlaying 0 60 = false) ∧
    ((noteOffFire 0 60 (st0.lastNoteIDs 0 60) (applyOps [midiOp.opNoteOff 0 60] st0)).2 = false →
        (noteOffFire 0 60 (st0.lastNoteIDs 0 60) (applyOps [midiOp.opNoteOff 0 60] st0)).1 =
          applyOps [midiOp.opNoteOff 0 60] st0) ∧
    (∀ (a b : Int) (s : NoteStateMx), (sendNoteOffSt a b s).lastNoteIDs = s.lastNoteIDs) :=
  c1_generation_cancel st0 0 60 [midiOp.opNoteOff 0 60] (by decide)

/-! ## Claim C7 -/

/-- C7 counterexample: with `duration_unit = 16`, `late_note_offset = 2` and
a deferred `NoteOnWithDuration` of duration 1, the scheduled note-off delay
is `1000000 * 16 * (1 - 2) = -16000000` nanoseconds — negative, because the
code applies no floor clamp to `duration - offset`. -/
theorem c7_counterexample :
    deferredDispatch 16 2 [⟨kNoteOnWithDuration, 0, 60, 100, 1⟩] =
      [⟨0, 60, 100, some (noteOffDelayNs 16 2 1)⟩] ∧
    noteOffDelayNs 16 2 1 < 0 := by
  constructor
  · rfl
  · norm_num [noteOffDelayNs]

/-- C7 (amended): every `NoteOnWithDuration` in the deferred list is sent
with its note-off scheduled after `1000000 * duration_unit * (duration -
late_note_offset)` nanoseconds — the duration reduced by the offset
expressed in duration units, with no clamping — and that delay is negative
exactly when the offset exceeds the duration. -/
theorem c7_deferred_duration (unit late : ℚ) (delayed : List command) (c : command)
    (hc : c ∈ delayed) (ht : c.type = kNoteOnWithDuration) (hu : 0 < unit) :
    (⟨c.channel, c.note, c.velocity, some (noteOffDelayNs unit late c.duration)⟩ : SentNoteOn) ∈
      deferredDispatch unit late delayed ∧
    (noteOffDelayNs unit late c.duration < 0 ↔ (c.duration : ℚ) < late) := by
  constructor
  · unfold deferredDispatch
    refine List.mem_filterMap.mpr ⟨c, hc, ?_⟩
    simp [sendLoopItem, ht]
  · unfold noteOffDelayNs
    constructor
    · intro hlt
      nlinarith
    · intro hlt
      nlinarith

/-- Witness for the amended C7. -/
theorem c7_witness :
    (⟨0, 60, 100, some (noteOffDelayNs 16 2 (⟨kNoteOnWithDuration, 0, 60, 100, 1⟩ : command).duration)⟩ : SentNoteOn) ∈
      deferredDispatch 16 2 [(⟨kNoteOnWithDuration, 0, 60, 100, 1⟩ : command)] ∧
    (noteOffDelayNs 16 2 (⟨kNoteOnWithDuration, 0, 60, 100, 1⟩ : command).duration < 0 ↔
      (((⟨kNoteOnWithDuration, 0, 60, 100, 1⟩ : command).duration : ℚ) < 2)) :=
  c7_deferred_duration 16 2 [⟨kNoteOnWithDuration, 0, 60, 100, 1⟩] ⟨kNoteOnWithDuration, 0, 60, 100, 1⟩
    (List.mem_singleton.mpr rfl) rfl (by norm_num)

/-! ## Claim C8 -/

/-- C8 counterexample: the queue capacity sequence after `midi_init` is
64, 128, 192, ... (a fixed additive block of 64), not geometric: no single
constant multiple `k` satisfies both `128 = k * 64` and `192 = k * 128`. -/
theorem c8_counterexample :
    (appendN 65 initQueue).allocSize = 128 ∧
    (appendN 129 initQueue).allocSize = 192 ∧
    ¬ ∃ k : ℚ, (128 : ℚ) = k * 64 ∧ (192 : ℚ) = k * 128 := by
  refine ⟨by decide, by decide, ?_⟩
  rintro ⟨k, h1, h2⟩
  have hk : k = 2 := by linarith
  rw [hk] at h2
  norm_num at h2

/-- C8 (amended): `queueCommand` never fails in the model: the command is
stored at the tail of the queue in insertion order, and when the queue is
full the capacity grows by a fixed additive increment of 64 slots (otherwise
it is unchanged). -/
theorem c8_append_tail_growth (q : cmdQueue) (c : command) :
    (queueCommand q c).entries = q.entries ++ [c] ∧
    (q.entries.length = q.allocSize → (queueCommand q c).allocSize = q.allocSize + 64) ∧
    (q.entries.length ≠ q.allocSize → (queueCommand q c).allocSize = q.allocSize) := by
  unfold queueCommand
  split_ifs with hfull
  · exact ⟨rfl, fun _ => rfl, fun hne => absurd hfull hne⟩
  · exact ⟨rfl, fun hh => absurd hh hfull, fun _ => rfl⟩

/-- Witness for the amended C8. -/
theorem c8_witness :
    (queueCommand initQueue dummyCommand).entries = initQueue.entries ++ [dummyCommand] ∧
    (initQueue.entries.length = initQueue.allocSize →
      (queueCommand initQueue dummyCommand).allocSize = initQueue.allocSize + 64) ∧
    (initQueue.entries.length ≠ initQueue.allocSize →
      (queueCommand initQueue dummyCommand).allocSize = initQueue.allocSize) :=
  c8_append_tail_growth initQueue dummyCommand

/-! ## Claim C9 -/

lemma clampChannel_range (a : Option Int) : 0 ≤ clampChannel a ∧ clampChannel a ≤ 15 := by
  cases a with
  | none => simp [clampChannel]
  | some v =>
      simp only [clampChannel]
      split_ifs <;> omega

lemma inRange_noteOn (ch nt vl dr : Int) (h1 : 0 ≤ ch) (h2 : ch ≤ 15) (h3 : 0 ≤ nt)
    (h4 : nt ≤ 127) (h5 : 1 ≤ vl) (h6 : vl ≤ 127) :
    commandInRange ⟨kNoteOn, ch, nt, vl, dr⟩ := ⟨h1, h2, h3, h4, h5, h6⟩

lemma inRange_noteOnDur (ch nt vl dr : Int) (h1 : 0 ≤ ch) (h2 : ch ≤ 15) (h3 : 0 ≤ nt)
    (h4 : nt ≤ 127) (h5 : 1 ≤ vl) (h6 : vl ≤ 127) :
    commandInRange ⟨kNoteOnWithDuration, ch, nt, vl, dr⟩ := ⟨h1, h2, h3, h4, h5, h6⟩

lemma inRange_noteOff (ch nt vl dr : Int) (h1 : 0 ≤ ch) (h2 : ch ≤ 15) (h3 : 0 ≤ nt)
    (h4 : nt ≤ 127) :
    commandInRange ⟨kNoteOff, ch, nt, vl, dr⟩ := ⟨h1, h2, h3, h4⟩

lemma inRange_CC (ch nt vl dr : Int) (h1 : 0 ≤ ch) (h2 : ch ≤ 15) (h3 : 0 ≤ nt)
    (h4 : nt ≤ 119) (h5 : 0 ≤ vl) (h6 : vl ≤ 127) :
    commandInRange ⟨kCC, ch, nt, vl, dr⟩ := ⟨h1, h2, h3, h4, h5, h6⟩

lemma inRange_pitchBend (ch nt vl dr : Int) (h1 : 0 ≤ ch) (h2 : ch ≤ 15) (h3 : 0 ≤ nt)
    (h4 : nt ≤ 127) (h5 : 0 ≤ vl) (h6 : vl ≤ 127) :
    commandInRange ⟨kPitchBend, ch, nt, vl, dr⟩ := ⟨h1, h2, h3, h4, h5, h6⟩

lemma inRange_resetNotes (ch nt vl dr : Int) (h1 : 0 ≤ ch) (h2 : ch ≤ 15) :
    commandInRange ⟨kResetNotes, ch, nt, vl, dr⟩ := ⟨h1, h2, trivial⟩

/-- C9: every command any API call appends is within the specified field
ranges — channel in [0,15], note in [0,127], velocity in [1,127] for note-on
kinds, controller in [0,119], value in [0,127] — and `queueCommand` preserves
the all-in-range invariant of the queue, so every queued command is in
range. -/
theorem c9_range_invariant :
    (∀ (n v : Int) (a : Option Int) (c : command), midi_noteon n v a = some c → commandInRange c) ∧
    (∀ (n : Int) (a : Option Int) (c : command), midi_noteoff n a = some c → commandInRange c) ∧
    (∀ (n v d : Int) (a : Option Int) (c : command),
      midi_noteonwithduration n v d a = some c → commandInRange c) ∧
    (∀ (cc val : Int) (a : Option Int) (c : command), midi_CC cc val a = some c → commandInRange c) ∧
    (∀ (d : Int) (a : Option Int) (c : command), midi_pitchbend d a = some c → commandInRange c) ∧
    (∀ (a : Option Int) (c : command), midi_allnotesoff a = some c → commandInRange c) ∧
    (∀ (q : cmdQueue) (c : command), (∀ x ∈ q.entries, commandInRange x) → commandInRange c →
      ∀ x ∈ (queueCommand q c).entries, commandInRange x) := by
  refine ⟨?_, ?_, ?_, ?_, ?_, ?_, ?_⟩
  · intro n v a c h
    have hcl := clampChannel_range a
    by_cases hv : v % 128 = 0
    · simp [midi_noteon, hv] at h
    · simp only [midi_noteon, if_neg hv, Option.some.injEq] at h
      subst h
      exact inRange_noteOn _ _ _ _ hcl.1 hcl.2 (by omega) (by omega) (by omega) (by omega)
  · intro n a c h
    have hcl := clampChannel_range a
    simp only [midi_noteoff, Option.some.injEq] at h
    subst h
    exact inRange_noteOff _ _ _ _ hcl.1 hcl.2 (by omega) (by omega)
  · intro n v d a c h
    have hcl := clampChannel_range a
    by_cases hv : v % 128 = 0
    · simp [midi_noteonwithduration, hv] at h
    · by_cases hd : d > 0
      · simp only [midi_noteonwithduration, if_neg hv, if_neg (show ¬ ¬ d > 0 from not_not.mpr hd),
          Option.some.injEq] at h
        subst h
        exact inRange_noteOnDur _ _ _ _ hcl.1 hcl.2 (by omega) (by omega) (by omega) (by omega)
      · simp [midi_noteonwithduration, hv, hd] at h
  · intro cc val a c h
    have hcl := clampChannel_range a
    simp only [midi_CC, Option.some.injEq] at h
    subst h
    refine inRange_CC _ _ _ _ hcl.1 hcl.2 ?_ ?_ (by omega) (by omega)
    · split_ifs <;> omega
    · split_ifs <;> omega
  · intro d a c h
    have hcl := clampChannel_range a
    simp only [midi_pitchbend, Option.some.injEq] at h
    subst h
    exact inRange_pitchBend _ _ _ _ hcl.1 hcl.2 (by omega) (by omega) (by omega) (by omega)
  · intro a c h
    have hcl := clampChannel_range a
    simp only [midi_allnotesoff, Option.some.injEq] at h
    subst h
    exact inRange_resetNotes _ _ _ _ hcl.1 hcl.2
  · intro q c hq hc x hx
    unfold queueCommand at hx
    split_ifs at hx <;>
      rcases List.mem_append.mp hx with hmem | hmem
    · exact hq x hmem
    · rw [List.mem_singleton.mp hmem]
      exact hc
    · exact hq x hmem
    · rw [List.mem_singleton.mp hmem]
      exact hc

/-- Witness for C9: a concrete `midi_noteon` call and its queueing. -/
theorem c9_witness :
    commandInRange (⟨kNoteOn, 0, 60, 100, 0⟩ : command) ∧
    (∀ x ∈ (queueCommand initQueue (⟨kNoteOn, 0, 60, 100, 0⟩ : command)).entries,
      commandInRange x) :=
  ⟨c9_range_invariant.1 60 100 none _ (by decide),
   c9_range_invariant.2.2.2.2.2.2 initQueue _ (by simp [initQueue])
     (c9_range_invariant.1 60 100 none _ (by decide))⟩

/-! ## Claim C10 -/

/-- C10: a `midi_noteon` or `midi_noteonwithduration` call whose velocity
masks to 0, and a `midi_noteonwithduration` call with zero or negative
duration, returns without appending anything: the module state (queue and
note state) is left unchanged. -/
theorem c10_zero_velocity_noop (st : EmState) (note vel dur : Int) (chArg : Option Int) :
    (vel % 128 = 0 →
      midi_noteon note vel chArg = none ∧
      runQueuedCall st (midi_noteon note vel chArg) = st) ∧
    (vel % 128 = 0 →
      midi_noteonwithduration note vel dur chArg = none ∧
      runQueuedCall st (midi_noteonwithduration note vel dur chArg) = st) ∧
    (dur ≤ 0 →
      midi_noteonwithduration note vel dur chArg = none ∧
      runQueuedCall st (midi_noteonwithduration note vel dur chArg) = st) := by
  refine ⟨fun hv => ?_, fun hv => ?_, fun hd => ?_⟩
  · have hnone : midi_noteon note vel chArg = none := by simp [midi_noteon, hv]
    exact ⟨hnone, by rw [hnone]; rfl⟩
  · have hnone : midi_noteonwithduration note vel dur chArg = none := by
      simp [midi_noteonwithduration, hv]
    exact ⟨hnone, by rw [hnone]; rfl⟩
  · have hnone : midi_noteonwithduration note vel dur chArg = none := by
      by_cases hv : vel % 128 = 0
      · simp [midi_noteonwithduration, hv]
      · simp [midi_noteonwithduration, hv, show ¬ dur > 0 by omega]
    exact ⟨hnone, by rw [hnone]; rfl⟩

/-- Witness for C10 with velocity 128 (masks to 0) and duration 0. -/
theorem c10_witness :
    (midi_noteon 60 128 none = none ∧
      runQueuedCall ⟨initQueue, st0⟩ (midi_noteon 60 128 none) = ⟨initQueue, st0⟩) ∧
    (midi_noteonwithduration 60 128 0 none = none ∧
      runQueuedCall ⟨initQueue, st0⟩ (midi_noteonwithduration 60 128 0 none) = ⟨initQueue, st0⟩) ∧
    (midi_noteonwithduration 60 128 0 none = none ∧
      runQueuedCall ⟨initQueue, st0⟩ (midi_noteonwithduration 60 128 0 none) = ⟨initQueue, st0⟩) :=
  ⟨(c10_zero_velocity_noop ⟨initQueue, st0⟩ 60 128 0 none).1 (by decide),
   (c10_zero_velocity_noop ⟨initQueue, st0⟩ 60 128 0 none).2.1 (by decide),
   (c10_zero_velocity_noop ⟨initQueue, st0⟩ 60 128 0 none).2.2 (by decide)⟩

end Emstrument
